import Mathlib

/-!
Verification development for the workspace-scoped command and file sandbox
(path confinement via `FileService._get_full_path`, the restricted terminal
`TerminalService.execute_command` with its `cd`/`pwd`/`clear` built-ins and
deny-list, and the porcelain status parsing of `GitService.get_status`).

Python strings that the services manipulate character by character are
modelled as `List Char`; values crossing the service boundary (paths stored
in the file-system model, result messages, spawn arguments) are `String`.
The host file system and the process spawner are modelled explicitly: the
file system as a finite map plus a directory set, the spawner as an oracle
giving the outcome of each attempted launch, with every attempt logged.
-/

/-- Characters stripped by Python `str.strip()` (ASCII whitespace:
space, tab, newline, carriage return, vertical tab, form feed). -/
def isStrSpace (c : Char) : Bool :=
  c = ' ' || c = '\t' || c = '\n' || c = '\r' || c = '\x0b' || c = '\x0c'

/-- The whitespace class of `shlex` (`shlex.whitespace = ' \t\r\n'`),
strictly smaller than Python's `str` whitespace. -/
def isShlexWS (c : Char) : Bool :=
  c = ' ' || c = '\t' || c = '\r' || c = '\n'

/-- Boolean list-prefix test: `isPrefixL pre l` holds when `pre` is an
initial segment of `l`; models Python `str.startswith`. -/
def isPrefixL : List Char → List Char → Bool
  | [], _ => true
  | _ :: _, [] => false
  | a :: as, b :: bs => a = b && isPrefixL as bs

/-- Python `str.startswith` on the `String` wrappers. -/
def pyStartsWith (s pre : String) : Bool :=
  isPrefixL pre.toList s.toList

/-- Drop trailing Python whitespace (the right half of `str.strip()`). -/
def stripTrailing (l : List Char) : List Char :=
  (l.reverse.dropWhile isStrSpace).reverse

/-- Python `str.strip()` with no argument. -/
def pyStrip (l : List Char) : List Char :=
  stripTrailing (l.dropWhile isStrSpace)

/-- Python `str.split(None, 1)`: at most two fields, split on runs of
whitespace, leading whitespace ignored, the remainder kept verbatim. -/
def pySplit1 (l : List Char) : List (List Char) :=
  let l1 := l.dropWhile isStrSpace
  if l1 = [] then []
  else
    let w := l1.takeWhile (fun c => !isStrSpace c)
    let r := (l1.drop w.length).dropWhile isStrSpace
    if r = [] then [w] else [w, r]

/-- Split a character list on a separator character. -/
def splitOnChar (c : Char) : List Char → List Char → List (List Char)
  | [], cur => [cur.reverse]
  | x :: xs, cur => if x = c then cur.reverse :: splitOnChar c xs [] else splitOnChar c xs (x :: cur)

/-- Join character lists with a separator character. -/
def intercalateChar (c : Char) : List (List Char) → List Char
  | [] => []
  | [x] => x
  | x :: xs => x ++ c :: intercalateChar c xs

/-- One step of the component scan of `posixpath.normpath`: skip empty and
`.` components, pop on `..` unless at an (absolute) root or after a kept
`..`. `slashes` is the number of initial slashes of the whole path. -/
def normpathStep (slashes : Nat) (acc : List (List Char)) (comp : List Char) : List (List Char) :=
  if comp = [] ∨ comp = ['.'] then acc
  else if comp ≠ ['.', '.'] ∨ (slashes = 0 ∧ acc = []) ∨ (acc ≠ [] ∧ acc.getLast? = some ['.', '.']) then
    acc ++ [comp]
  else if acc ≠ [] then acc.dropLast
  else acc

/-- `posixpath.normpath`: collapse `.`, `..` and duplicate separators,
preserving one or two initial slashes. -/
def normpathL (p : List Char) : List Char :=
  if p = [] then ['.']
  else
    let slashes : Nat :=
      if isPrefixL ['/', '/'] p ∧ ¬ isPrefixL ['/', '/', '/'] p then 2
      else if isPrefixL ['/'] p then 1
      else 0
    let comps := splitOnChar '/' p []
    let newComps := comps.foldl (normpathStep slashes) []
    let out := List.replicate slashes '/' ++ intercalateChar '/' newComps
    if out = [] then ['.'] else out

/-- `posixpath.join` for two arguments: an absolute second argument
replaces the first, otherwise they are glued with a single separator. -/
def posixJoinL (a b : List Char) : List Char :=
  if isPrefixL ['/'] b then b
  else if a = [] ∨ a.getLast? = some '/' then a ++ b
  else a ++ '/' :: b

/-- `os.path.normpath` on `String`. -/
def normpathS (p : String) : String :=
  String.mk (normpathL p.toList)

/-- `os.path.join` on `String`. -/
def posixJoinS (a b : String) : String :=
  String.mk (posixJoinL a.toList b.toList)

/-- `os.path.dirname` restricted to the normalized paths this system
produces (no duplicate or trailing separators). -/
def dirnameL (p : List Char) : List Char :=
  let cs := splitOnChar '/' p []
  if cs.length ≤ 1 then []
  else
    let d := intercalateChar '/' cs.dropLast
    if d = [] then ['/'] else d

/-- `os.path.dirname` on `String`. -/
def dirnameS (p : String) : String :=
  String.mk (dirnameL p.toList)

/-- All the prefix paths an absolute directory path consists of, shortest
first: the directories `os.makedirs` has to create. -/
def ancestorsL (d : List Char) : List (List Char) :=
  let comps := (splitOnChar '/' d []).filter (· ≠ [])
  (List.range comps.length).map (fun i => '/' :: intercalateChar '/' (comps.take (i + 1)))

/-- Ancestor directories of an absolute path, as `String` keys. -/
def ancestorsS (d : String) : List String :=
  (ancestorsL d.toList).map String.mk

/-- Error taxonomy of the file store, mirroring the exceptions raised by
`FileService` (`ValueError("Path outside workspace not allowed")`,
`FileNotFoundError`, `ValueError` for directories / binary files /
pre-existing targets, and propagated `OSError`s). -/
inductive FileErr where
  | pathEscape
  | notFound
  | isDirectory
  | binaryFile
  | alreadyExists
  | osError
  deriving DecidableEq

/-- `FileService._get_full_path`: empty input resolves to the workspace
root; otherwise join against the root, normalize, and require the result
string to start with the root's string. -/
def getFullPath (workspace_dir relative_path : String) : Except FileErr String :=
  if relative_path = "" then .ok workspace_dir
  else
    let full := normpathS (posixJoinS workspace_dir relative_path)
    if pyStartsWith full workspace_dir then .ok full
    else .error .pathEscape

/-- Containment in the sense the specification's safety claims intend
("inside WorkspaceRoot"): equal to the root, or strictly below it past a
path separator.  This deliberately follows the claims' words, to be
compared with the raw string-prefix check of the source. -/
def specIsWithin (root p : String) : Bool :=
  p = root || isPrefixL (root.toList ++ ['/']) p.toList

/-- Model of the host file system: a finite map from absolute path strings
to text contents, plus the set of directories. -/
structure FSState where
  files : List (String × String)
  dirs : List String
  deriving DecidableEq

/-- `os.path.isdir` in the model. -/
def isdirFS (S : FSState) (p : String) : Bool :=
  S.dirs.contains p

/-- A regular file exists at `p`. -/
def isfileFS (S : FSState) (p : String) : Bool :=
  S.files.any (fun kv => kv.1 == p)

/-- `os.path.exists` in the model. -/
def pexists (S : FSState) (p : String) : Bool :=
  isfileFS S p || isdirFS S p

/-- Content of the file at `p`, if one exists. -/
def getFileContent (S : FSState) (p : String) : Option String :=
  (S.files.find? (fun kv => kv.1 == p)).map (fun kv => kv.2)

/-- Store `t` at path `p`, shadowing any previous content (Python
`open(p, "w").write(t)`). -/
def setFile (S : FSState) (p t : String) : FSState :=
  { S with files := (p, t) :: S.files }

/-- Worker for `os.makedirs(d, exist_ok=True)`: walk the ancestor list,
creating missing directories, failing when a component exists as a
regular file.  Returns success flag and the (possibly partially updated)
state. -/
def mkdirsGo (S : FSState) : List String → Bool × FSState
  | [] => (true, S)
  | a :: rest =>
    if isfileFS S a then (false, S)
    else if isdirFS S a then mkdirsGo S rest
    else mkdirsGo { S with dirs := a :: S.dirs } rest

/-- `os.makedirs(d, exist_ok=True)` in the model. -/
def mkdirs (S : FSState) (d : String) : Bool × FSState :=
  mkdirsGo S (ancestorsS d)

/-- `FileService.create_file`: resolve, fail with `AlreadyExistsError`
when anything exists at the target, else create parent directories and
an empty file. -/
def create_file (workspace_dir : String) (S : FSState) (file_path : String) :
    Except FileErr Unit × FSState :=
  match getFullPath workspace_dir file_path with
  | .error e => (.error e, S)
  | .ok full =>
    if pexists S full then (.error .alreadyExists, S)
    else
      match mkdirs S (dirnameS full) with
      | (false, S1) => (.error .osError, S1)
      | (true, S1) =>
        if isdirFS S1 full then (.error .isDirectory, S1)
        else (.ok (), setFile S1 full "")

/-- States of the POSIX `shlex` tokenizer: scanning, after a backslash,
inside single quotes, inside double quotes, after a backslash inside
double quotes. -/
inductive SMode where
  | norm
  | esc
  | single
  | double
  | dqEsc
  deriving DecidableEq

/-- The `shlex.split` state machine (posix mode, `whitespace_split=True`,
no comments): whitespace separates tokens, single quotes are fully
literal, double quotes honour `\"` and `\\`, a bare backslash escapes the
next character.  Errors are the `ValueError` messages `shlex` raises. -/
def shlexGo : SMode → Option (List Char) → List Char → Except String (List (List Char))
  | .norm, tok, [] =>
    .ok (match tok with | none => [] | some tk => [tk])
  | .esc, _, [] => .error "No escaped character"
  | .dqEsc, _, [] => .error "No escaped character"
  | .single, _, [] => .error "No closing quotation"
  | .double, _, [] => .error "No closing quotation"
  | .norm, tok, c :: cs =>
    if isShlexWS c then
      match tok with
      | none => shlexGo .norm none cs
      | some tk =>
        match shlexGo .norm none cs with
        | .ok r => .ok (tk :: r)
        | .error e => .error e
    else if c = '\'' then shlexGo .single (some (tok.getD [])) cs
    else if c = '"' then shlexGo .double (some (tok.getD [])) cs
    else if c = '\\' then shlexGo .esc (some (tok.getD [])) cs
    else shlexGo .norm (some (tok.getD [] ++ [c])) cs
  | .esc, tok, c :: cs => shlexGo .norm (some (tok.getD [] ++ [c])) cs
  | .single, tok, c :: cs =>
    if c = '\'' then shlexGo .norm (some (tok.getD [])) cs
    else shlexGo .single (some (tok.getD [] ++ [c])) cs
  | .double, tok, c :: cs =>
    if c = '"' then shlexGo .norm (some (tok.getD [])) cs
    else if c = '\\' then shlexGo .dqEsc (some (tok.getD [])) cs
    else shlexGo .double (some (tok.getD [] ++ [c])) cs
  | .dqEsc, tok, c :: cs =>
    if c = '"' ∨ c = '\\' then shlexGo .double (some (tok.getD [] ++ [c])) cs
    else shlexGo .double (some (tok.getD [] ++ ['\\', c])) cs

/-- `shlex.split(command)`. -/
def shlexSplit (l : List Char) : Except String (List (List Char)) :=
  shlexGo .norm none l

/-- `TerminalResult` from `terminal_service.py`. -/
structure TerminalResult where
  output : String
  error : String
  exit_code : Int
  deriving DecidableEq

/-- Per-session state kept in `TerminalService.sessions`: working
directory and environment copy. -/
structure SessionState where
  cwd : String
  env : List (String × String)
  deriving DecidableEq

/-- Construction-time data of `TerminalService`: the workspace directory
and the environment inherited by new sessions (`os.environ.copy()`). -/
structure TermConfig where
  workspace_dir : String
  initial_env : List (String × String)

/-- The `sessions` dictionary, as an association list with unique keys. -/
abbrev SessionMap := List (String × SessionState)

/-- Dictionary lookup. -/
def lookupS : SessionMap → String → Option SessionState
  | [], _ => none
  | (k, v) :: rest, q => if k = q then some v else lookupS rest q

/-- Dictionary update of an existing key (`session['cwd'] = new_path`). -/
def updateS : SessionMap → String → SessionState → SessionMap
  | [], _, _ => []
  | (k, v) :: rest, q, w => if k = q then (k, w) :: rest else (k, v) :: updateS rest q w

/-- Lazy session creation at the top of `execute_command`. -/
def ensureSession (cfg : TermConfig) (M : SessionMap) (sessionId : String) : SessionMap :=
  if (lookupS M sessionId).isNone then (sessionId, ⟨cfg.workspace_dir, cfg.initial_env⟩) :: M
  else M

/-- Outcome of one `subprocess.run` attempt, chosen by the environment:
normal completion with captured streams and return code, a 30-second
timeout, a missing executable, or any other spawn failure. -/
inductive SpawnOutcome where
  | completed (out err : String) (code : Int)
  | timedOut
  | notFound
  | failed (msg : String)

/-- An oracle fixing what the host does for each attempted spawn,
keyed by argument vector and working directory. -/
def SpawnOracle := List String → String → SpawnOutcome

/-- Result of one `execute_command` call: the returned `TerminalResult`,
the sessions dictionary afterwards, and the log of attempted process
spawns (argument vector and working directory of each). -/
structure ExecOutcome where
  result : TerminalResult
  sessions : SessionMap
  spawns : List (List String × String)
  deriving DecidableEq

/-- The deny-list of `execute_command`. -/
def dangerousCommands : List (List Char) :=
  [['r', 'm'], ['r', 'm', 'd', 'i', 'r'], ['d', 'e', 'l'],
   ['f', 'o', 'r', 'm', 'a', 't'], ['f', 'd', 'i', 's', 'k'],
   ['m', 'k', 'f', 's']]

/-- Tail of `_handle_cd_command` (lines 137-156): existence and
directory checks on the chosen target, then the `cwd` update. -/
def cdFinish (fs : FSState) (sessionId : String) (sess : SessionState) (M : SessionMap)
    (newPath pathName : String) : ExecOutcome :=
  if pexists fs newPath = false then
    ⟨⟨"", "No such file or directory: " ++ pathName ++ "\n", 1⟩, M, []⟩
  else if isdirFS fs newPath = false then
    ⟨⟨"", "Not a directory: " ++ pathName ++ "\n", 1⟩, M, []⟩
  else
    ⟨⟨"", "", 0⟩, updateS M sessionId { sess with cwd := newPath }, []⟩

/-- `TerminalService._handle_cd_command`: split the stripped command once;
with no argument target the workspace root, otherwise normalize the
(absolute or `cwd`-relative) argument and require its string to start
with the workspace root's string. -/
def handleCd (cfg : TermConfig) (fs : FSState) (command : String) (sessionId : String)
    (sess : SessionState) (M : SessionMap) : ExecOutcome :=
  match pySplit1 (pyStrip command.toList) with
  | [] => ⟨⟨"", "cd error: list index out of range\n", 1⟩, M, []⟩
  | [_] => cdFinish fs sessionId sess M cfg.workspace_dir "~"
  | _ :: pathL :: _ =>
    let path := String.mk pathL
    if isPrefixL ['/'] pathL then
      let newPath := String.mk (normpathL pathL)
      if pyStartsWith newPath cfg.workspace_dir then cdFinish fs sessionId sess M newPath path
      else ⟨⟨"", "Access denied: path outside workspace\n", 1⟩, M, []⟩
    else
      let newPath := String.mk (normpathL (posixJoinL sess.cwd.toList pathL))
      if pyStartsWith newPath cfg.workspace_dir then cdFinish fs sessionId sess M newPath path
      else ⟨⟨"", "Access denied: path outside workspace\n", 1⟩, M, []⟩

/-- The non-built-in tail of `execute_command` (lines 50-97): tokenize
with `shlex`, apply the deny-list, then attempt the spawn; every failure
is converted to a `TerminalResult`.  An empty argument vector makes the
spawn primitive itself raise (`args[0]` on an empty list) before any
process is created. -/
def runExternal (orc : SpawnOracle) (command : String) (sess : SessionState) (M : SessionMap) :
    ExecOutcome :=
  match shlexSplit command.toList with
  | .error e => ⟨⟨"", "Error executing command: " ++ e ++ "\n", 1⟩, M, []⟩
  | .ok argsL =>
    match argsL with
    | [] => ⟨⟨"", "Error executing command: list index out of range\n", 1⟩, M, []⟩
    | a0L :: restL =>
      if dangerousCommands.contains a0L then
        ⟨⟨"", "Command \"" ++ String.mk a0L ++ "\" is not allowed for security reasons\n", 1⟩, M, []⟩
      else
        let args := String.mk a0L :: restL.map String.mk
        match orc args sess.cwd with
        | .completed o e c => ⟨⟨o, e, c⟩, M, [(args, sess.cwd)]⟩
        | .timedOut =>
          ⟨⟨"", "Command timed out after 30 seconds\n", 124⟩, M, [(args, sess.cwd)]⟩
        | .notFound =>
          ⟨⟨"", "Command not found: " ++ String.mk a0L ++ "\n", 127⟩, M, [(args, sess.cwd)]⟩
        | .failed m =>
          ⟨⟨"", "Error executing command: " ++ m ++ "\n", 1⟩, M, [(args, sess.cwd)]⟩

/-- `TerminalService.execute_command`: lazily create the session, try the
`cd `/`pwd`/`clear` built-ins on the stripped command, otherwise hand off
to the external-command path. -/
def execute_command (cfg : TermConfig) (fs : FSState) (orc : SpawnOracle)
    (command sessionId : String) (M0 : SessionMap) : ExecOutcome :=
  let M := ensureSession cfg M0 sessionId
  let sess := (lookupS M sessionId).getD ⟨cfg.workspace_dir, cfg.initial_env⟩
  let st := pyStrip command.toList
  if isPrefixL ['c', 'd', ' '] st then handleCd cfg fs command sessionId sess M
  else if st = ['p', 'w', 'd'] then ⟨⟨sess.cwd ++ "\n", "", 0⟩, M, []⟩
  else if st = ['c', 'l', 'e', 'a', 'r'] then ⟨⟨"\x1b[2J\x1b[H", "", 0⟩, M, []⟩
  else runExternal orc command sess M

/-- Classification of one porcelain status line in `GitService.get_status`. -/
inductive StatusClass where
  | staged
  | modified
  | untracked
  deriving DecidableEq

/-- First status-code letters that stage a path (`['M','A','D','R','C']`). -/
def gitStagedCodes : List Char := ['M', 'A', 'D', 'R', 'C']

/-- Second status-code letters that mark a path modified (`['M','D']`). -/
def gitModifiedCodes : List Char := ['M', 'D']

/-- The per-line classification of `get_status` (lines 64-76): lines
shorter than three characters are skipped; the first code character is
tested against the staged letters, then the second against the modified
letters, then the code pair against `??`; the path is the suffix from
index 3. -/
def classifyStatusLine (line : List Char) : Option (StatusClass × List Char) :=
  match line with
  | c0 :: c1 :: _ :: rest =>
    if gitStagedCodes.contains c0 then some (.staged, rest)
    else if gitModifiedCodes.contains c1 then some (.modified, rest)
    else if c0 = '?' ∧ c1 = '?' then some (.untracked, rest)
    else none
  | _ => none

/-- The status-collection loop of `get_status`: distribute the porcelain
lines over the staged, modified and untracked lists, preserving order. -/
def parseStatusLines : List (List Char) → List (List Char) × List (List Char) × List (List Char)
  | [] => ([], [], [])
  | line :: rest =>
    let (st, mo, un) := parseStatusLines rest
    match classifyStatusLine line with
    | some (.staged, p) => (p :: st, mo, un)
    | some (.modified, p) => (st, p :: mo, un)
    | some (.untracked, p) => (st, mo, p :: un)
    | none => (st, mo, un)

/-- The two characters that are Python `str` whitespace but not `shlex`
whitespace: vertical tab and form feed. -/
def isVtff (c : Char) : Bool :=
  c = '\x0b' || c = '\x0c'

/-- A character the tokenizer simply appends in scanning mode: not
whitespace, not a quote, not the escape character. -/
def isPlainShlex (c : Char) : Bool :=
  !isShlexWS c && !(c = '\'') && !(c = '"') && !(c = '\\')

/-- A concrete sandbox: workspace root `/ws` with a subdirectory and a
sibling directory `/wsX` whose name extends the root's string. -/
def sandboxCfg : TermConfig := ⟨"/ws", []⟩

/-- Host directories for the concrete sandbox runs. -/
def sandboxFS : FSState := ⟨[], ["/ws", "/ws/sub", "/wsX"]⟩

/-- A spawn oracle on which every launch fails with `FileNotFoundError`. -/
def notFoundOracle : SpawnOracle := fun _ _ => .notFound

/-- A file-system model holding just the workspace root directory. -/
def emptyWsFS : FSState := ⟨[], ["/ws"]⟩

/-! ## Helper lemmas -/

theorem toList_mk (l : List Char) : (String.mk l).toList = l := rfl

theorem isPrefixL_refl (l : List Char) : isPrefixL l l = true := by
  induction l with
  | nil => rfl
  | cons c l ih => simp [isPrefixL, ih]

theorem isPrefixL_cons_inv {a : Char} {pre l : List Char}
    (h : isPrefixL (a :: pre) l = true) : ∃ l', l = a :: l' ∧ isPrefixL pre l' = true := by
  cases l with
  | nil => simp [isPrefixL] at h
  | cons b l' =>
    simp only [isPrefixL, Bool.and_eq_true, decide_eq_true_eq] at h
    exact ⟨l', by rw [h.1], h.2⟩

theorem mem_takeWhile_sat {p : Char → Bool} {l : List Char} {c : Char}
    (h : c ∈ l.takeWhile p) : p c = true := by
  induction l with
  | nil => simp [List.takeWhile] at h
  | cons a l ih =>
    rw [List.takeWhile] at h
    cases hp : p a with
    | false => rw [hp] at h; simp at h
    | true =>
      rw [hp] at h
      rcases List.mem_cons.mp h with rfl | hm
      · exact hp
      · exact ih hm

theorem stripTrailing_decomp (l : List Char) :
    ∃ w, (∀ c ∈ w, isStrSpace c = true) ∧ l = stripTrailing l ++ w := by
  refine ⟨(l.reverse.takeWhile isStrSpace).reverse, ?_, ?_⟩
  · intro c hc
    exact mem_takeWhile_sat (List.mem_reverse.mp hc)
  · unfold stripTrailing
    conv_lhs => rw [← List.reverse_reverse l, ← List.takeWhile_append_dropWhile (p := isStrSpace) (l := l.reverse)]
    rw [List.reverse_append]

theorem str_append_ne_empty (a b : String) (ha : a ≠ "") : a ++ b ≠ "" := by
  intro h
  apply ha
  have hd : a.data ++ b.data = [] := by
    have : (a ++ b).data = ("" : String).data := by rw [h]
    cases a; cases b; exact this
  cases a with
  | mk d =>
    have : d = [] := (List.append_eq_nil.mp hd).1
    rw [this]

theorem strspace_cases {c : Char} (h : isStrSpace c = true) :
    isShlexWS c = true ∨ isVtff c = true := by
  simp only [isStrSpace, isShlexWS, isVtff, Bool.or_eq_true, decide_eq_true_eq] at *
  tauto

theorem vtff_plain {c : Char} (h : isVtff c = true) :
    isShlexWS c = false ∧ c ≠ '\'' ∧ c ≠ '"' ∧ c ≠ '\\' := by
  simp only [isVtff, Bool.or_eq_true, decide_eq_true_eq] at h
  rcases h with rfl | rfl <;> exact ⟨rfl, by decide, by decide, by decide⟩

theorem shlexWS_strSpace {c : Char} (h : isShlexWS c = true) : isStrSpace c = true := by
  simp only [isShlexWS, isStrSpace, Bool.or_eq_true, decide_eq_true_eq] at *
  tauto

/-! ## One-step unfolding lemmas for the tokenizer -/

theorem shlexGo_norm_cons (tok : Option (List Char)) (c : Char) (cs : List Char) :
    shlexGo .norm tok (c :: cs) =
      (if isShlexWS c then
        match tok with
        | none => shlexGo .norm none cs
        | some tk =>
          match shlexGo .norm none cs with
          | .ok r => .ok (tk :: r)
          | .error e => .error e
      else if c = '\'' then shlexGo .single (some (tok.getD [])) cs
      else if c = '"' then shlexGo .double (some (tok.getD [])) cs
      else if c = '\\' then shlexGo .esc (some (tok.getD [])) cs
      else shlexGo .norm (some (tok.getD [] ++ [c])) cs) := rfl

theorem shlexGo_norm_flush (tk : List Char) (c : Char) (cs : List Char)
    (h : isShlexWS c = true) :
    shlexGo .norm (some tk) (c :: cs) =
      (match shlexGo .norm none cs with
       | .ok r => .ok (tk :: r)
       | .error e => .error e) := by
  rw [shlexGo_norm_cons, if_pos h]

theorem shlexGo_norm_skip (c : Char) (cs : List Char) (h : isShlexWS c = true) :
    shlexGo .norm none (c :: cs) = shlexGo .norm none cs := by
  rw [shlexGo_norm_cons, if_pos h]

theorem shlexGo_norm_plain (tok : Option (List Char)) (c : Char) (cs : List Char)
    (h : isPlainShlex c = true) :
    shlexGo .norm tok (c :: cs) = shlexGo .norm (some (tok.getD [] ++ [c])) cs := by
  simp only [isPlainShlex, Bool.and_eq_true, Bool.not_eq_true', decide_eq_false_iff_not] at h
  rw [shlexGo_norm_cons, if_neg (by rw [h.1.1.1]; exact Bool.false_ne_true),
    if_neg h.1.1.2, if_neg h.1.2, if_neg h.2]

theorem shlexGo_plain_run (w : List Char) (hw : ∀ c ∈ w, isPlainShlex c = true)
    (tk cs : List Char) :
    shlexGo .norm (some tk) (w ++ cs) = shlexGo .norm (some (tk ++ w)) cs := by
  induction w generalizing tk with
  | nil => simp
  | cons c w ih =>
    rw [List.cons_append,
      shlexGo_norm_plain _ _ _ (hw c (List.mem_cons_self ..)),
      ih (fun d hd => hw d (List.mem_cons_of_mem _ hd))]
    simp

theorem shlexGo_ws_tok (w : List Char) (hw : ∀ c ∈ w, isStrSpace c = true)
    (tk cs : List Char) (out : List (List Char))
    (h : shlexGo .norm (some tk) (w ++ cs) = .ok out) :
    (∃ u rest, (∀ c ∈ u, isVtff c = true) ∧ out = (tk ++ u) :: rest) ∨
    (∃ u, (∀ c ∈ u, isVtff c = true) ∧ shlexGo .norm (some (tk ++ u)) cs = .ok out) := by
  induction w generalizing tk with
  | nil =>
    right
    exact ⟨[], by simp, by simpa using h⟩
  | cons c w ih =>
    have hc := hw c (List.mem_cons_self ..)
    have hw' : ∀ d ∈ w, isStrSpace d = true := fun d hd => hw d (List.mem_cons_of_mem _ hd)
    rcases strspace_cases hc with hws | hvt
    · rw [List.cons_append, shlexGo_norm_flush tk c _ hws] at h
      cases hrec : shlexGo .norm none (w ++ cs) with
      | error e => rw [hrec] at h; exact Except.noConfusion h
      | ok r =>
        rw [hrec] at h
        left
        exact ⟨[], r, by simp, by simpa using (Except.ok.inj h).symm⟩
    · obtain ⟨hws', hq1, hq2, hq3⟩ := vtff_plain hvt
      have hplain : isPlainShlex c = true := by
        simp [isPlainShlex, hws', hq1, hq2, hq3]
      rw [List.cons_append, shlexGo_norm_plain _ _ _ hplain] at h
      simp only [Option.getD_some] at h
      rcases ih hw' (tk ++ [c]) h with ⟨u, rest, hu, hout⟩ | ⟨u, hu, h2⟩
      · left
        refine ⟨c :: u, rest, ?_, ?_⟩
        · intro d hd
          rcases List.mem_cons.mp hd with rfl | hm
          · exact hvt
          · exact hu d hm
        · simpa [List.append_assoc] using hout
      · right
        refine ⟨c :: u, ?_, ?_⟩
        · intro d hd
          rcases List.mem_cons.mp hd with rfl | hm
          · exact hvt
          · exact hu d hm
        · simpa [List.append_assoc] using h2

theorem shlexGo_ws_none (w : List Char) (hw : ∀ c ∈ w, isStrSpace c = true)
    (cs : List Char) (out : List (List Char))
    (h : shlexGo .norm none (w ++ cs) = .ok out) :
    shlexGo .norm none cs = .ok out ∨
    (∃ u, u ≠ [] ∧ (∀ c ∈ u, isVtff c = true) ∧
      ((∃ rest, out = u :: rest) ∨ shlexGo .norm (some u) cs = .ok out)) := by
  induction w with
  | nil => left; simpa using h
  | cons c w ih =>
    have hc := hw c (List.mem_cons_self ..)
    have hw' : ∀ d ∈ w, isStrSpace d = true := fun d hd => hw d (List.mem_cons_of_mem _ hd)
    rcases strspace_cases hc with hws | hvt
    · rw [List.cons_append, shlexGo_norm_skip c _ hws] at h
      exact ih hw' h
    · obtain ⟨hws', hq1, hq2, hq3⟩ := vtff_plain hvt
      have hplain : isPlainShlex c = true := by
        simp [isPlainShlex, hws', hq1, hq2, hq3]
      rw [List.cons_append, shlexGo_norm_plain _ _ _ hplain] at h
      simp only [Option.getD_none, List.nil_append] at h
      rcases shlexGo_ws_tok w hw' [c] cs out h with ⟨u, rest, hu, hout⟩ | ⟨u, hu, h2⟩
      · right
        refine ⟨c :: u, by simp, ?_, .inl ⟨rest, by simpa using hout⟩⟩
        intro d hd
        rcases List.mem_cons.mp hd with rfl | hm
        · exact hvt
        · exact hu d hm
      · right
        refine ⟨c :: u, by simp, ?_, .inr (by simpa using h2)⟩
        intro d hd
        rcases List.mem_cons.mp hd with rfl | hm
        · exact hvt
        · exact hu d hm
theorem firstTok_strip_cd (cs t : List Char) (ts : List (List Char))
    (hstrip : isPrefixL ['c', 'd', ' '] (pyStrip cs) = true)
    (hsp : shlexSplit cs = .ok (t :: ts)) :
    (∃ u, (∀ c ∈ u, isVtff c = true) ∧ t = u ++ ['c', 'd']) ∨
    (∃ u, u ≠ [] ∧ (∀ c ∈ u, isVtff c = true) ∧ t = u) := by
  have hlead : ∀ c ∈ cs.takeWhile isStrSpace, isStrSpace c = true :=
    fun c hc => mem_takeWhile_sat hc
  obtain ⟨w2, hw2, hLdecomp⟩ := stripTrailing_decomp (cs.dropWhile isStrSpace)
  unfold pyStrip at hstrip
  obtain ⟨l1, he1, hp1⟩ := isPrefixL_cons_inv hstrip
  obtain ⟨l2, he2, hp2⟩ := isPrefixL_cons_inv hp1
  obtain ⟨l3, he3, _⟩ := isPrefixL_cons_inv hp2
  have hL : cs.dropWhile isStrSpace = 'c' :: 'd' :: ' ' :: (l3 ++ w2) := by
    conv_lhs => rw [hLdecomp]
    rw [he1, he2, he3]
    simp
  have hsp' : shlexGo .norm none
      (cs.takeWhile isStrSpace ++ ('c' :: 'd' :: ' ' :: (l3 ++ w2))) = .ok (t :: ts) := by
    rw [← hL, List.takeWhile_append_dropWhile]
    exact hsp
  rcases shlexGo_ws_none _ hlead _ _ hsp' with hA | ⟨u, hne, hu, ⟨rest, hout⟩ | hC⟩
  · rw [shlexGo_norm_plain none 'c' _ (by decide)] at hA
    simp only [Option.getD_none, List.nil_append] at hA
    rw [shlexGo_norm_plain (some ['c']) 'd' _ (by decide)] at hA
    simp only [Option.getD_some] at hA
    rw [shlexGo_norm_flush _ ' ' _ (by decide)] at hA
    cases hrec : shlexGo .norm none (l3 ++ w2) with
    | error e => rw [hrec] at hA; exact Except.noConfusion hA
    | ok r =>
      rw [hrec] at hA
      have hinj := Except.ok.inj hA
      left
      exact ⟨[], by simp, by simpa using (List.cons.injEq .. ▸ hinj : _ ∧ _).1.symm⟩
  · right
    exact ⟨u, hne, hu, (List.cons.injEq .. ▸ hout : _ ∧ _).1⟩
  · rw [shlexGo_norm_plain (some u) 'c' _ (by decide)] at hC
    simp only [Option.getD_some] at hC
    rw [shlexGo_norm_plain _ 'd' _ (by decide)] at hC
    simp only [Option.getD_some] at hC
    rw [shlexGo_norm_flush _ ' ' _ (by decide)] at hC
    cases hrec : shlexGo .norm none (l3 ++ w2) with
    | error e => rw [hrec] at hC; exact Except.noConfusion hC
    | ok r =>
      rw [hrec] at hC
      have hinj := Except.ok.inj hC
      left
      refine ⟨u, hu, ?_⟩
      have := (List.cons.injEq .. ▸ hinj : _ ∧ _).1
      rw [← this]
      simp
theorem firstTok_strip_word (cs w0 t : List Char) (ts : List (List Char))
    (hplain : ∀ c ∈ w0, isPlainShlex c = true) (hne : w0 ≠ [])
    (hstrip : pyStrip cs = w0)
    (hsp : shlexSplit cs = .ok (t :: ts)) :
    (∃ u u2, (∀ c ∈ u, isVtff c = true) ∧ (∀ c ∈ u2, isVtff c = true) ∧ t = u ++ w0 ++ u2) ∨
    (∃ u, u ≠ [] ∧ (∀ c ∈ u, isVtff c = true) ∧ t = u) := by
  have hlead : ∀ c ∈ cs.takeWhile isStrSpace, isStrSpace c = true :=
    fun c hc => mem_takeWhile_sat hc
  obtain ⟨w2, hw2, hLdecomp⟩ := stripTrailing_decomp (cs.dropWhile isStrSpace)
  unfold pyStrip at hstrip
  have hL : cs.dropWhile isStrSpace = w0 ++ w2 := by
    conv_lhs => rw [hLdecomp]
    rw [hstrip]
  have hsp' : shlexGo .norm none (cs.takeWhile isStrSpace ++ (w0 ++ w2)) = .ok (t :: ts) := by
    rw [← hL, List.takeWhile_append_dropWhile]
    exact hsp
  rcases shlexGo_ws_none _ hlead _ _ hsp' with hA | ⟨u, hune, hu, ⟨rest, hout⟩ | hC⟩
  · cases w0 with
    | nil => exact absurd rfl hne
    | cons c0 w0' =>
      rw [List.cons_append, shlexGo_norm_plain none c0 _ (hplain c0 (List.mem_cons_self ..))] at hA
      simp only [Option.getD_none, List.nil_append] at hA
      rw [shlexGo_plain_run w0' (fun d hd => hplain d (List.mem_cons_of_mem _ hd)) [c0] w2] at hA
      rw [← List.append_nil w2] at hA
      rcases shlexGo_ws_tok w2 hw2 _ [] _ hA with ⟨u2, rest, hu2, hout⟩ | ⟨u2, hu2, h2⟩
      · left
        refine ⟨[], u2, by simp, hu2, ?_⟩
        have := (List.cons.injEq .. ▸ hout.symm : _ ∧ _).1
        rw [← this]
        simp
      · have h2' : (Except.ok [[c0] ++ w0' ++ u2] : Except String (List (List Char))) = .ok (t :: ts) := h2
        have hinj := Except.ok.inj h2'
        left
        refine ⟨[], u2, by simp, hu2, ?_⟩
        have := (List.cons.injEq .. ▸ hinj : _ ∧ _).1
        rw [← this]
        simp
  · right
    exact ⟨u, hune, hu, (List.cons.injEq .. ▸ hout : _ ∧ _).1⟩
  · rw [shlexGo_plain_run w0 hplain u w2] at hC
    rw [← List.append_nil w2] at hC
    rcases shlexGo_ws_tok w2 hw2 _ [] _ hC with ⟨u2, rest, hu2, hout⟩ | ⟨u2, hu2, h2⟩
    · left
      refine ⟨u, u2, hu, hu2, ?_⟩
      exact ((List.cons.injEq .. ▸ hout.symm : _ ∧ _).1).symm
    · have h2' : (Except.ok [u ++ w0 ++ u2] : Except String (List (List Char))) = .ok (t :: ts) := h2
      have hinj := Except.ok.inj h2'
      left
      refine ⟨u, u2, hu, hu2, ?_⟩
      exact ((List.cons.injEq .. ▸ hinj : _ ∧ _).1).symm
theorem dangerous_contains_false (c : Char) (rest : List Char)
    (hc : c = 'p' ∨ c = 'c' ∨ isVtff c = true) :
    dangerousCommands.contains (c :: rest) = false := by
  rcases hc with rfl | rfl | hv
  · rfl
  · rfl
  · simp only [isVtff, Bool.or_eq_true, decide_eq_true_eq] at hv
    rcases hv with rfl | rfl <;> rfl

theorem not_dangerous_of_strip_cd (cs t : List Char) (ts : List (List Char))
    (hstrip : isPrefixL ['c', 'd', ' '] (pyStrip cs) = true)
    (hsp : shlexSplit cs = .ok (t :: ts)) :
    dangerousCommands.contains t = false := by
  rcases firstTok_strip_cd cs t ts hstrip hsp with ⟨u, hu, ht⟩ | ⟨u, hune, hu, ht⟩
  · cases u with
    | nil =>
      rw [ht]
      exact dangerous_contains_false 'c' ['d'] (.inr (.inl rfl))
    | cons c u' =>
      rw [ht, List.cons_append]
      exact dangerous_contains_false c _ (.inr (.inr (hu c (List.mem_cons_self ..))))
  · cases u with
    | nil => exact absurd rfl hune
    | cons c u' =>
      rw [ht]
      exact dangerous_contains_false c _ (.inr (.inr (hu c (List.mem_cons_self ..))))

theorem not_dangerous_of_strip_word (cs w0 t : List Char) (ts : List (List Char))
    (hplain : ∀ c ∈ w0, isPlainShlex c = true) (hne : w0 ≠ [])
    (hhead : ∀ c r, w0 = c :: r → (c = 'p' ∨ c = 'c' ∨ isVtff c = true))
    (hstrip : pyStrip cs = w0)
    (hsp : shlexSplit cs = .ok (t :: ts)) :
    dangerousCommands.contains t = false := by
  rcases firstTok_strip_word cs w0 t ts hplain hne hstrip hsp with
    ⟨u, u2, hu, hu2, ht⟩ | ⟨u, hune, hu, ht⟩
  · cases u with
    | nil =>
      cases w0 with
      | nil => exact absurd rfl hne
      | cons c0 r =>
        rw [ht, List.nil_append, List.cons_append]
        exact dangerous_contains_false c0 _ (hhead c0 r rfl)
    | cons c u' =>
      rw [ht, List.append_assoc, List.cons_append]
      exact dangerous_contains_false c _ (.inr (.inr (hu c (List.mem_cons_self ..))))
  · cases u with
    | nil => exact absurd rfl hune
    | cons c u' =>
      rw [ht]
      exact dangerous_contains_false c _ (.inr (.inr (hu c (List.mem_cons_self ..))))

theorem shlexGo_allws (l : List Char) (h : ∀ c ∈ l, isShlexWS c = true) :
    shlexGo .norm none l = .ok [] := by
  induction l with
  | nil => rfl
  | cons c l ih =>
    rw [shlexGo_norm_skip c _ (h c (List.mem_cons_self ..))]
    exact ih (fun d hd => h d (List.mem_cons_of_mem _ hd))

theorem pyStrip_nil_of_allws (l : List Char) (h : ∀ c ∈ l, isStrSpace c = true) :
    pyStrip l = [] := by
  have hdrop : l.dropWhile isStrSpace = [] := by
    induction l with
    | nil => rfl
    | cons c l ih =>
      rw [List.dropWhile_cons, if_pos (h c (List.mem_cons_self ..))]
      exact ih (fun d hd => h d (List.mem_cons_of_mem _ hd))
  rw [pyStrip, hdrop]
  rfl

/-! ## Claim theorems -/

/-- C1: the command line consisting exactly of `cd` does NOT run the
built-in change-directory handler: the dispatch test requires the prefix
`"cd "`, so bare `cd` falls through to the external path, a spawn of
`["cd"]` is attempted, and (no such executable existing) the call returns
exit code 127 with the session `cwd` untouched — not exit 0. -/
theorem c1_bare_cd_goes_external :
    execute_command sandboxCfg sandboxFS notFoundOracle "cd" "default" [] =
      ⟨⟨"", "Command not found: cd\n", 127⟩,
        [("default", ⟨"/ws", []⟩)], [(["cd"], "/ws")]⟩ := rfl

/-- C2 counterexample: `../wsX/f` contains a `..` segment and normalizes
to `/wsX/f`, which is not inside the workspace root `/ws`, yet
`_get_full_path` accepts it because the raw string-prefix check passes. -/
theorem c2_counterexample :
    ((splitOnChar '/' "../wsX/f".toList []).contains ['.', '.'] = true) ∧
    getFullPath "/ws" "../wsX/f" = .ok "/wsX/f" ∧
    specIsWithin "/ws" "/wsX/f" = false := ⟨rfl, rfl, rfl⟩

/-- C2 (amended): `_get_full_path` resolves the empty path to the
workspace root; it fails with `PathEscapeError` exactly when the
normalized joined path's string does not start with the root's string,
and every successfully returned path starts with the root's string. -/
theorem c2_resolve_spec (ws p : String) :
    (getFullPath ws "" = .ok ws) ∧
    (∀ q, getFullPath ws p = .ok q → pyStartsWith q ws = true) ∧
    (p ≠ "" → pyStartsWith (normpathS (posixJoinS ws p)) ws = false →
      getFullPath ws p = .error .pathEscape) ∧
    (p ≠ "" → pyStartsWith (normpathS (posixJoinS ws p)) ws = true →
      getFullPath ws p = .ok (normpathS (posixJoinS ws p))) := by
  refine ⟨?_, ?_, ?_, ?_⟩
  · unfold getFullPath
    rw [if_pos rfl]
  · intro q hq
    unfold getFullPath at hq
    by_cases hp : p = ""
    · rw [if_pos hp] at hq
      rw [← Except.ok.inj hq]
      exact isPrefixL_refl _
    · rw [if_neg hp] at hq
      by_cases hs : pyStartsWith (normpathS (posixJoinS ws p)) ws = true
      · rw [if_pos hs] at hq
        rw [← Except.ok.inj hq]
        exact hs
      · rw [if_neg hs] at hq
        exact Except.noConfusion hq
  · intro hp hs
    unfold getFullPath
    rw [if_neg hp, if_neg (by rw [hs]; exact Bool.false_ne_true)]
  · intro hp hs
    unfold getFullPath
    rw [if_neg hp, if_pos hs]

/-- C2 witness: a `..` path whose normalization leaves `/ws` is rejected. -/
theorem c2_resolve_spec_witness :
    getFullPath "/ws" "../x" = .error .pathEscape :=
  (c2_resolve_spec "/ws" "../x").2.2.1 (by decide) rfl

/-- C3: a crafted relative path normalizing to a sibling directory whose
absolute string merely extends the root's string passes the containment
check of `_get_full_path` although the result is not inside the root. -/
theorem c3_prefix_bypass :
    getFullPath "/ws" "../wsXtra/g" = .ok "/wsXtra/g" ∧
    pyStartsWith "/wsXtra/g" "/ws" = true ∧
    specIsWithin "/ws" "/wsXtra/g" = false := ⟨rfl, rfl, rfl⟩

/-- C4: whenever shell-word-splitting of the command line succeeds with a
first token in the deny-list, `execute_command` returns exit code 1 with
a message naming that token, no spawn is attempted, and the only state
change is the lazy session creation. -/
theorem c4_denylist (cfg : TermConfig) (fs : FSState) (orc : SpawnOracle)
    (command sessionId : String) (M : SessionMap) (t : List Char) (ts : List (List Char))
    (hsp : shlexSplit command.toList = .ok (t :: ts))
    (hd : dangerousCommands.contains t = true) :
    execute_command cfg fs orc command sessionId M =
      ⟨⟨"", "Command \"" ++ String.mk t ++ "\" is not allowed for security reasons\n", 1⟩,
        ensureSession cfg M sessionId, []⟩ := by
  have hcd : ¬ (isPrefixL ['c', 'd', ' '] (pyStrip command.toList) = true) := by
    intro hx
    rw [not_dangerous_of_strip_cd _ t ts hx hsp] at hd
    exact Bool.noConfusion hd
  have hpwd : ¬ (pyStrip command.toList = ['p', 'w', 'd']) := by
    intro hx
    rw [not_dangerous_of_strip_word _ ['p', 'w', 'd'] t ts (by decide) (by decide)
      (fun c r hcr => by rw [List.cons.injEq] at hcr; exact .inl hcr.1.symm) hx hsp] at hd
    exact Bool.noConfusion hd
  have hclear : ¬ (pyStrip command.toList = ['c', 'l', 'e', 'a', 'r']) := by
    intro hx
    rw [not_dangerous_of_strip_word _ ['c', 'l', 'e', 'a', 'r'] t ts (by decide) (by decide)
      (fun c r hcr => by rw [List.cons.injEq] at hcr; exact .inr (.inl hcr.1.symm)) hx hsp] at hd
    exact Bool.noConfusion hd
  unfold execute_command
  rw [if_neg hcd, if_neg hpwd, if_neg hclear]
  unfold runExternal
  rw [hsp]
  simp only [hd, if_true]

/-- C4 witness: `rm -rf /` is denied with exit 1 and no spawn. -/
theorem c4_denylist_witness :
    execute_command sandboxCfg sandboxFS notFoundOracle "rm -rf /" "default" [] =
      ⟨⟨"", "Command \"rm\" is not allowed for security reasons\n", 1⟩,
        [("default", ⟨"/ws", []⟩)], []⟩ :=
  c4_denylist sandboxCfg sandboxFS notFoundOracle "rm -rf /" "default" []
    ['r', 'm'] [['-', 'r', 'f'], ['/']] rfl rfl

/-- C6 counterexample: the line `?? c.txt` has a non-space first status
character, so the claim's general rule would stage it, but the parser
classifies it untracked (the staged set is keyed on the letter codes
`M`,`A`,`D`,`R`,`C`, not on "non-space"). -/
theorem c6_counterexample :
    ¬ (∀ (c0 c1 c2 : Char) (rest : List Char), c0 ≠ ' ' →
      classifyStatusLine (c0 :: c1 :: c2 :: rest) = some (.staged, rest)) := by
  intro hclaim
  have := hclaim '?' '?' ' ' "c.txt".toList (by decide)
  exact absurd this (by decide)

/-- C6 (amended): a first status-code character in `{M,A,D,R,C}` stages
the path; otherwise a second character in `{M,D}` marks it modified;
otherwise the code `??` marks it untracked; the first rule takes
precedence and each line lands in at most one set; the porcelain lines
`M  a.txt`, ` M b.txt`, `?? c.txt` classify as staged, modified and
untracked respectively. -/
theorem c6_status_classification :
    (∀ (c0 c1 c2 : Char) (rest : List Char), gitStagedCodes.contains c0 = true →
      classifyStatusLine (c0 :: c1 :: c2 :: rest) = some (.staged, rest)) ∧
    (∀ (c0 c1 c2 : Char) (rest : List Char),
      gitStagedCodes.contains c0 = false → gitModifiedCodes.contains c1 = true →
      classifyStatusLine (c0 :: c1 :: c2 :: rest) = some (.modified, rest)) ∧
    (∀ (c0 c1 c2 : Char) (rest : List Char),
      gitStagedCodes.contains c0 = false → gitModifiedCodes.contains c1 = false →
      c0 = '?' → c1 = '?' →
      classifyStatusLine (c0 :: c1 :: c2 :: rest) = some (.untracked, rest)) ∧
    parseStatusLines ["M  a.txt".toList, " M b.txt".toList, "?? c.txt".toList] =
      (["a.txt".toList], ["b.txt".toList], ["c.txt".toList]) := by
  refine ⟨?_, ?_, ?_, rfl⟩
  · intro c0 c1 c2 rest h
    simp only [classifyStatusLine]
    rw [if_pos h]
  · intro c0 c1 c2 rest h0 h1
    simp only [classifyStatusLine]
    rw [if_neg (by rw [h0]; exact Bool.false_ne_true), if_pos h1]
  · intro c0 c1 c2 rest h0 h1 e0 e1
    simp only [classifyStatusLine]
    rw [if_neg (by rw [h0]; exact Bool.false_ne_true),
      if_neg (by rw [h1]; exact Bool.false_ne_true), if_pos ⟨e0, e1⟩]

/-- C6 witness: an `A ` code stages the path suffix. -/
theorem c6_status_classification_witness :
    classifyStatusLine ('A' :: ' ' :: ' ' :: "y.txt".toList) = some (.staged, "y.txt".toList) :=
  c6_status_classification.1 'A' ' ' ' ' "y.txt".toList rfl

/-- C9 counterexample: `../other` designates no existing file (the model
file system is empty of files), yet `create_file` does not succeed — it
raises the path-escape error, because the claim's quantification over
"every path" also covers paths that resolve outside the workspace. -/
theorem c9_counterexample :
    emptyWsFS.files = [] ∧
    (create_file "/ws" emptyWsFS "../other").1 = .error .pathEscape ∧
    (create_file "/ws" emptyWsFS "../other").2 = emptyWsFS :=
  ⟨rfl, rfl, rfl⟩

/-- C9 (amended): for every path that resolves inside the workspace,
at whose resolved target nothing exists, and whose parent chain can be
created without being blocked, `create_file` succeeds and creates an
empty file; a second `create_file` at the same path fails with
`AlreadyExistsError` and leaves the file-system state unchanged. -/
theorem c9_create_twice (ws : String) (S : FSState) (p full : String)
    (h1 : getFullPath ws p = .ok full)
    (h2 : pexists S full = false)
    (h3 : (mkdirs S (dirnameS full)).1 = true)
    (h4 : isdirFS (mkdirs S (dirnameS full)).2 full = false) :
    create_file ws S p = (.ok (), setFile (mkdirs S (dirnameS full)).2 full "") ∧
    isfileFS (setFile (mkdirs S (dirnameS full)).2 full "") full = true ∧
    getFileContent (setFile (mkdirs S (dirnameS full)).2 full "") full = some "" ∧
    create_file ws (setFile (mkdirs S (dirnameS full)).2 full "") p =
      (.error .alreadyExists, setFile (mkdirs S (dirnameS full)).2 full "") := by
  rcases hmk : mkdirs S (dirnameS full) with ⟨b, S1⟩
  rw [hmk] at h3 h4
  have hb : b = true := h3
  subst hb
  refine ⟨?_, ?_, ?_, ?_⟩
  · unfold create_file
    rw [h1]
    simp only []
    rw [if_neg (by rw [h2]; exact Bool.false_ne_true), hmk]
    simp only []
    rw [if_neg (by rw [h4]; exact Bool.false_ne_true)]
  · simp [isfileFS, setFile]
  · simp [getFileContent, setFile, List.find?]
  · unfold create_file
    rw [h1]
    simp only []
    rw [if_pos (by simp [pexists, isfileFS, setFile])]

/-- C9 witness: creating `n/new.txt` twice — the second call fails with
the already-exists error and returns the unchanged state. -/
theorem c9_create_twice_witness :
    create_file "/ws" (setFile (mkdirs emptyWsFS (dirnameS "/ws/n/new.txt")).2 "/ws/n/new.txt" "") "n/new.txt" =
      (.error .alreadyExists, setFile (mkdirs emptyWsFS (dirnameS "/ws/n/new.txt")).2 "/ws/n/new.txt" "") :=
  (c9_create_twice "/ws" emptyWsFS "n/new.txt" "/ws/n/new.txt" rfl rfl rfl rfl).2.2.2

/-- C10 counterexample: the vertical tab `\x0b` is Python `str`
whitespace, so the command consists only of whitespace, but it is not
`shlex` whitespace: tokenization yields one token, a spawn of it is
attempted, and the call returns exit 127, not 1. -/
theorem c10_counterexample :
    ("\x0b".toList.all isStrSpace = true) ∧
    (execute_command sandboxCfg sandboxFS notFoundOracle "\x0b" "default" []).result.exit_code = 127 ∧
    (execute_command sandboxCfg sandboxFS notFoundOracle "\x0b" "default" []).spawns =
      [(["\x0b"], "/ws")] :=
  ⟨rfl, rfl, rfl⟩

/-- C10 (amended): for every command line that is empty or consists only
of `shlex` whitespace (space, tab, carriage return, newline), no built-in
matches, no spawn is attempted, and the empty token list makes the spawn
primitive fail, caught and converted to a generic exit-1 result. -/
theorem c10_whitespace_command (cfg : TermConfig) (fs : FSState) (orc : SpawnOracle)
    (command sessionId : String) (M : SessionMap)
    (h : ∀ c ∈ command.toList, isShlexWS c = true) :
    execute_command cfg fs orc command sessionId M =
      ⟨⟨"", "Error executing command: list index out of range\n", 1⟩,
        ensureSession cfg M sessionId, []⟩ := by
  have hstrip : pyStrip command.toList = [] :=
    pyStrip_nil_of_allws _ (fun c hc => shlexWS_strSpace (h c hc))
  have hsp : shlexSplit command.toList = .ok [] := shlexGo_allws _ h
  unfold execute_command
  rw [if_neg (by rw [hstrip]; decide), if_neg (by rw [hstrip]; decide),
    if_neg (by rw [hstrip]; decide)]
  unfold runExternal
  rw [hsp]

/-- C10 witness: a single-space command yields the generic exit-1 result
with no spawn. -/
theorem c10_whitespace_command_witness :
    execute_command sandboxCfg sandboxFS notFoundOracle " " "default" [] =
      ⟨⟨"", "Error executing command: list index out of range\n", 1⟩,
        [("default", ⟨"/ws", []⟩)], []⟩ :=
  c10_whitespace_command sandboxCfg sandboxFS notFoundOracle " " "default" [] (by decide)

theorem cdFinish_classified (fs : FSState) (sid : String) (sess : SessionState)
    (M : SessionMap) (newPath pathName : String) :
    (cdFinish fs sid sess M newPath pathName).result = ⟨"", "", 0⟩ ∨
    ((cdFinish fs sid sess M newPath pathName).result.exit_code ≠ 0 ∧
     (cdFinish fs sid sess M newPath pathName).result.error ≠ "") := by
  unfold cdFinish
  split
  · right
    refine ⟨by show (1 : Int) ≠ 0; decide, ?_⟩
    show ¬("No such file or directory: " ++ pathName ++ "\n") = ""
    exact str_append_ne_empty _ _ (str_append_ne_empty _ _ (by decide))
  · split
    · right
      refine ⟨by show (1 : Int) ≠ 0; decide, ?_⟩
      show ¬("Not a directory: " ++ pathName ++ "\n") = ""
      exact str_append_ne_empty _ _ (str_append_ne_empty _ _ (by decide))
    · left; rfl

theorem handleCd_classified (cfg : TermConfig) (fs : FSState) (command sid : String)
    (sess : SessionState) (M : SessionMap) :
    (handleCd cfg fs command sid sess M).result = ⟨"", "", 0⟩ ∨
    ((handleCd cfg fs command sid sess M).result.exit_code ≠ 0 ∧
     (handleCd cfg fs command sid sess M).result.error ≠ "") := by
  unfold handleCd
  split
  · right
    exact ⟨by show (1 : Int) ≠ 0; decide,
      by show ¬("cd error: list index out of range\n") = ""; decide⟩
  · exact cdFinish_classified ..
  · dsimp only
    split
    · split
      · exact cdFinish_classified ..
      · right
        exact ⟨by show (1 : Int) ≠ 0; decide,
          by show ¬("Access denied: path outside workspace\n") = ""; decide⟩
    · split
      · exact cdFinish_classified ..
      · right
        exact ⟨by show (1 : Int) ≠ 0; decide,
          by show ¬("Access denied: path outside workspace\n") = ""; decide⟩

theorem runExternal_classified (orc : SpawnOracle) (command : String) (sess : SessionState)
    (M : SessionMap) :
    ((runExternal orc command sess M).result.exit_code ≠ 0 ∧
     (runExternal orc command sess M).result.error ≠ "") ∨
    (∃ a cw o e k, orc a cw = .completed o e k ∧
      (runExternal orc command sess M).result = ⟨o, e, k⟩) := by
  unfold runExternal
  split
  · left
    exact ⟨by show (1 : Int) ≠ 0; decide,
      str_append_ne_empty _ _ (str_append_ne_empty _ _ (by decide))⟩
  · split
    · left
      exact ⟨by show (1 : Int) ≠ 0; decide,
        by show ¬("Error executing command: list index out of range\n") = ""; decide⟩
    · split
      · left
        exact ⟨by show (1 : Int) ≠ 0; decide,
          str_append_ne_empty _ _ (str_append_ne_empty _ _ (by decide))⟩
      · dsimp only
        split
        · rename_i o e k horc
          right
          exact ⟨_, _, o, e, k, horc, rfl⟩
        · left
          exact ⟨by show (124 : Int) ≠ 0; decide,
            by show ¬("Command timed out after 30 seconds\n") = ""; decide⟩
        · left
          exact ⟨by show (127 : Int) ≠ 0; decide,
            str_append_ne_empty _ _ (str_append_ne_empty _ _ (by decide))⟩
        · left
          exact ⟨by show (1 : Int) ≠ 0; decide,
            str_append_ne_empty _ _ (str_append_ne_empty _ _ (by decide))⟩

/-- C5: `execute_command` is total over `TerminalResult`: every call
returns a result, and that result is a successful built-in (exit 0,
empty error), the verbatim outcome of a completed child process, or an
internally generated failure with a non-zero exit code and a non-empty
human-readable message — no exception propagates. -/
theorem c5_total_result (cfg : TermConfig) (fs : FSState) (orc : SpawnOracle)
    (command sessionId : String) (M : SessionMap) :
    ((execute_command cfg fs orc command sessionId M).result.exit_code = 0 ∧
     (execute_command cfg fs orc command sessionId M).result.error = "") ∨
    (∃ a cw o e k, orc a cw = .completed o e k ∧
      (execute_command cfg fs orc command sessionId M).result = ⟨o, e, k⟩) ∨
    ((execute_command cfg fs orc command sessionId M).result.exit_code ≠ 0 ∧
     (execute_command cfg fs orc command sessionId M).result.error ≠ "") := by
  unfold execute_command
  dsimp only
  split
  · rcases handleCd_classified cfg fs command sessionId _ _ with h | h
    · left; exact ⟨by rw [h], by rw [h]⟩
    · right; right; exact h
  · split
    · left; exact ⟨rfl, rfl⟩
    · split
      · left; exact ⟨rfl, rfl⟩
      · rcases runExternal_classified orc command _ _ with h | h
        · right; right; exact h
        · right; left; exact h

theorem lookupS_updateS_inv (M : SessionMap) (q : String) (w : SessionState)
    (k : String) (st : SessionState)
    (h : lookupS (updateS M q w) k = some st) : st = w ∨ lookupS M k = some st := by
  induction M with
  | nil => exact .inr h
  | cons kv M ih =>
    obtain ⟨k1, v1⟩ := kv
    unfold updateS at h
    by_cases he : k1 = q
    · rw [if_pos he] at h
      unfold lookupS at h ⊢
      by_cases hk : k1 = k
      · rw [if_pos hk] at h
        exact .inl (Option.some.inj h).symm
      · rw [if_neg hk] at h ⊢
        exact .inr h
    · rw [if_neg he] at h
      unfold lookupS at h ⊢
      by_cases hk : k1 = k
      · rw [if_pos hk] at h ⊢
        exact .inr h
      · rw [if_neg hk] at h ⊢
        exact ih h

theorem lookupS_ensure_inv (cfg : TermConfig) (M : SessionMap) (sid k : String)
    (st : SessionState)
    (h : lookupS (ensureSession cfg M sid) k = some st) :
    st = ⟨cfg.workspace_dir, cfg.initial_env⟩ ∨ lookupS M k = some st := by
  unfold ensureSession at h
  by_cases hc : (lookupS M sid).isNone = true
  · rw [if_pos hc] at h
    unfold lookupS at h
    by_cases hk : sid = k
    · rw [if_pos hk] at h
      exact .inl (Option.some.inj h).symm
    · rw [if_neg hk] at h
      exact .inr h
  · rw [if_neg hc] at h
    exact .inr h

theorem cdFinish_cwd_inv (fs : FSState) (sid : String) (sess : SessionState)
    (M : SessionMap) (newPath pathName ws : String)
    (hnew : pyStartsWith newPath ws = true)
    (hM : ∀ k st, lookupS M k = some st → pyStartsWith st.cwd ws = true) :
    ∀ k st, lookupS (cdFinish fs sid sess M newPath pathName).sessions k = some st →
      pyStartsWith st.cwd ws = true := by
  intro k st h
  unfold cdFinish at h
  split at h
  · exact hM k st h
  · split at h
    · exact hM k st h
    · rcases lookupS_updateS_inv M sid _ k st h with rfl | h2
      · exact hnew
      · exact hM k st h2

theorem handleCd_cwd_inv (cfg : TermConfig) (fs : FSState) (command sid : String)
    (sess : SessionState) (M : SessionMap)
    (hM : ∀ k st, lookupS M k = some st → pyStartsWith st.cwd cfg.workspace_dir = true) :
    ∀ k st, lookupS (handleCd cfg fs command sid sess M).sessions k = some st →
      pyStartsWith st.cwd cfg.workspace_dir = true := by
  intro k st h
  unfold handleCd at h
  split at h
  · exact hM k st h
  · exact cdFinish_cwd_inv fs sid sess M cfg.workspace_dir "~" cfg.workspace_dir
      (isPrefixL_refl _) hM k st h
  · dsimp only at h
    split at h
    · split at h
      · rename_i hcond
        exact cdFinish_cwd_inv fs sid sess M _ _ cfg.workspace_dir hcond hM k st h
      · exact hM k st h
    · split at h
      · rename_i hcond
        exact cdFinish_cwd_inv fs sid sess M _ _ cfg.workspace_dir hcond hM k st h
      · exact hM k st h

theorem runExternal_sessions (orc : SpawnOracle) (command : String) (sess : SessionState)
    (M : SessionMap) : (runExternal orc command sess M).sessions = M := by
  unfold runExternal
  split
  · rfl
  · split
    · rfl
    · split
      · rfl
      · dsimp only
        split <;> rfl

/-- C8 counterexample: from the root of workspace `/ws`, `cd ../wsX`
passes the string-prefix containment check and succeeds with exit 0,
leaving the session working directory at `/wsX`, which is not inside the
workspace root — the cwd is not always inside WorkspaceRoot. -/
theorem c8_counterexample :
    (execute_command sandboxCfg sandboxFS notFoundOracle "cd ../wsX" "default" []).result.exit_code = 0 ∧
    lookupS (execute_command sandboxCfg sandboxFS notFoundOracle "cd ../wsX" "default" []).sessions
      "default" = some ⟨"/wsX", []⟩ ∧
    specIsWithin "/ws" "/wsX" = false :=
  ⟨rfl, rfl, rfl⟩

/-- C8 (amended): every session's working directory always has the
workspace root's absolute string as a prefix: sessions are created with
cwd = WorkspaceRoot, the cd built-in updates cwd only after its
string-prefix containment check passes, and no other operation changes
cwd — so the prefix invariant is preserved by every `execute_command`
call. -/
theorem c8_cwd_prefix_invariant (cfg : TermConfig) (fs : FSState) (orc : SpawnOracle)
    (command sessionId : String) (M : SessionMap)
    (hM : ∀ k st, lookupS M k = some st → pyStartsWith st.cwd cfg.workspace_dir = true) :
    ∀ k st, lookupS (execute_command cfg fs orc command sessionId M).sessions k = some st →
      pyStartsWith st.cwd cfg.workspace_dir = true := by
  have hM' : ∀ k st, lookupS (ensureSession cfg M sessionId) k = some st →
      pyStartsWith st.cwd cfg.workspace_dir = true := by
    intro k' st' h'
    rcases lookupS_ensure_inv cfg M sessionId k' st' h' with rfl | h2
    · exact isPrefixL_refl _
    · exact hM k' st' h2
  intro k st h
  unfold execute_command at h
  dsimp only at h
  split at h
  · exact handleCd_cwd_inv cfg fs command sessionId _ _ hM' k st h
  · split at h
    · exact hM' k st h
    · split at h
      · exact hM' k st h
      · rw [runExternal_sessions] at h
        exact hM' k st h

/-- C8 witness: after `cd sub` from a fresh session the recorded cwd
`/ws/sub` carries the workspace prefix. -/
theorem c8_cwd_prefix_invariant_witness :
    pyStartsWith (SessionState.mk "/ws/sub" []).cwd "/ws" = true :=
  c8_cwd_prefix_invariant sandboxCfg sandboxFS notFoundOracle "cd sub" "default" []
    (fun _ _ h => Option.noConfusion h) "default" ⟨"/ws/sub", []⟩ rfl
